import Mathlib

/- Shallow embedding of src/core/Database.cpp (the in-memory password-database
   core). Machine integers (quint64 transform rounds) are modelled as Nat: the
   program only stores and compares them, never does arithmetic on them, so no
   wrap-around behaviour is reachable. Byte arrays (KDF seeds, derived keys)
   are modelled as opaque Nat tokens, UTC timestamps as Nat, and external
   sources of nondeterminism (the random number generator, the clock) are
   passed to each operation as explicit parameters. -/

namespace KPX

/-- Opaque composite secret; the core only reads its raw-key representation. -/
structure CompositeKey where
  rawKey : Nat
deriving DecidableEq

/-- Modelled from the spec: CompositeKey::transform lives in crypto/ code that
is not under src/; the spec treats the composite key as an opaque secret with a
transform(seed, rounds) -> derivedKey operation. We model the KDF as an
injective pairing of the secret, the seed and the round count. -/
def CompositeKey.transform (key : CompositeKey) (seed : Nat) (rounds : Nat) : Nat :=
  Nat.pair key.rawKey (Nat.pair seed rounds)

/-- Leaf credential record; only its identity matters to Database.cpp. -/
structure Entry where
  uuid : Nat
deriving DecidableEq

/-- Tree node: identity, ordered entries, ordered child groups
(Group::uuid, Group::entries, Group::children). -/
inductive Group : Type where
  | mk : Nat → List Entry → List Group → Group

/-- Identity of a group. -/
def Group.uuid : Group → Nat
  | .mk u _ _ => u

/-- Ordered entries of a group. -/
def Group.entries : Group → List Entry
  | .mk _ es _ => es

/-- Ordered child groups of a group. -/
def Group.children : Group → List Group
  | .mk _ _ cs => cs

mutual
/-- Database::recFindEntry(uuid, group): scan the group's entries in order for
the identity, then recurse into the child groups in order; the first hit wins
and a miss is the null result. -/
def recFindEntry (u : Nat) : Group → Option Entry
  | .mk _ es cs =>
    match List.find? (fun e => e.uuid == u) es with
    | some e => some e
    | none => recFindEntryL u cs

/-- The Q_FOREACH loop of recFindEntry over a child-group list. -/
def recFindEntryL (u : Nat) : List Group → Option Entry
  | [] => none
  | c :: cs =>
    match recFindEntry u c with
    | some e => some e
    | none => recFindEntryL u cs
end

mutual
/-- Database::recFindGroup(uuid, group): check the group itself first, then
recurse into the child groups in order. -/
def recFindGroup (u : Nat) : Group → Option Group
  | .mk gu es cs =>
    if gu = u then some (.mk gu es cs)
    else recFindGroupL u cs

/-- The Q_FOREACH loop of recFindGroup over a child-group list. -/
def recFindGroupL (u : Nat) : List Group → Option Group
  | [] => none
  | c :: cs =>
    match recFindGroup u c with
    | some g => some g
    | none => recFindGroupL u cs
end

mutual
/-- The depth-first pre-order listing of the entries of a subtree: the
group's own entries first, then the entries of each child subtree in order.
This is the specification-side reading of the traversal order. -/
def preorderEntries : Group → List Entry
  | .mk _ es cs => es ++ preorderEntriesL cs

/-- Pre-order entry listing of a forest. -/
def preorderEntriesL : List Group → List Entry
  | [] => []
  | c :: cs => preorderEntries c ++ preorderEntriesL cs
end

mutual
/-- The depth-first pre-order listing of the groups of a subtree: the group
itself first, then each child subtree in order. This is the
specification-side reading of the traversal order. -/
def preorderGroups : Group → List Group
  | .mk gu es cs => Group.mk gu es cs :: preorderGroupsL cs

/-- Pre-order group listing of a forest. -/
def preorderGroupsL : List Group → List Group
  | [] => []
  | c :: cs => preorderGroups c ++ preorderGroupsL cs
end

mutual
/-- Whether some entry with the given identity occurs in the subtree. -/
def containsEntryG (u : Nat) : Group → Bool
  | .mk _ es cs => List.any es (fun e => e.uuid == u) || containsEntryL u cs

/-- Whether some entry with the given identity occurs in the forest. -/
def containsEntryL (u : Nat) : List Group → Bool
  | [] => false
  | c :: cs => containsEntryG u c || containsEntryL u cs
end

mutual
/-- The identity of the first group, in depth-first pre-order, whose own
entry list holds an entry with the given identity: the owning group of that
entry. -/
def ownerOfG (u : Nat) : Group → Option Nat
  | .mk gu es cs =>
    if List.any es (fun e => e.uuid == u) then some gu
    else ownerOfL u cs

/-- Owner search over a forest. -/
def ownerOfL (u : Nat) : List Group → Option Nat
  | [] => none
  | c :: cs =>
    match ownerOfG u c with
    | some g => some g
    | none => ownerOfL u cs
end

mutual
/-- Detaching an entry from the tree: every entry with the given identity is
removed from whichever group holds it (an entry's identity is unique within a
well-formed tree, so this is the removal of the one entry object). -/
def removeEntryG (u : Nat) : Group → Group
  | .mk gu es cs => .mk gu (List.filter (fun e => e.uuid != u) es) (removeEntryL u cs)

/-- Entry detachment over a forest. -/
def removeEntryL (u : Nat) : List Group → List Group
  | [] => []
  | c :: cs => removeEntryG u c :: removeEntryL u cs
end

mutual
/-- Attaching an entry at the end of the entry list of the group with the
given identity (every such group; a group's identity is unique within a
well-formed tree). -/
def addEntryG (target : Nat) (e : Entry) : Group → Group
  | .mk gu es cs =>
    .mk gu (if gu = target then es ++ [e] else es) (addEntryL target e cs)

/-- Entry attachment over a forest. -/
def addEntryL (target : Nat) (e : Entry) : List Group → List Group
  | [] => []
  | c :: cs => addEntryG target e c :: addEntryL target e cs
end

mutual
/-- The number of groups in the subtree carrying the given identity. -/
def countGroupsWithUuid (u : Nat) : Group → Nat
  | .mk gu _ cs => (if gu = u then 1 else 0) + countGroupsWithUuidL u cs

/-- Group-identity count over a forest. -/
def countGroupsWithUuidL (u : Nat) : List Group → Nat
  | [] => 0
  | c :: cs => countGroupsWithUuid u c + countGroupsWithUuidL u cs
end

mutual
/-- The total number of groups in the subtree, the subtree's own root
included. -/
def totalGroups : Group → Nat
  | .mk _ _ cs => 1 + totalGroupsL cs

/-- Total group count of a forest. -/
def totalGroupsL : List Group → Nat
  | [] => 0
  | c :: cs => totalGroups c + totalGroupsL cs
end

/-- Immutable tombstone record (core/DeletedObject): identity of the removed
object plus a UTC deletion timestamp. -/
structure DeletedObject where
  uuid : Nat
  deletionTime : Nat
deriving DecidableEq

/-- Modelled from the spec: the Metadata side-table (core/Metadata, not under
src/) as far as Database.cpp reads and writes it: the master-key-changed
timestamp, the recycle-bin-enabled flag, and a weak by-identity reference to
the designated recycle group. -/
structure Metadata where
  masterKeyChanged : Option Nat
  recycleBinEnabled : Bool
  recycleBin : Option Nat
deriving DecidableEq

/-- Events emitted synchronously by Database member functions; the only one
Database.cpp emits directly from a mutation is modifiedImmediate. -/
inductive DbEvent : Type where
  | modifiedImmediate
deriving DecidableEq

/-- The Database aggregate root: the fields of class Database that
Database.cpp manipulates. -/
structure Database where
  uuid : Nat
  cipher : Nat
  compressionAlgo : Nat
  transformRounds : Nat
  transformSeed : Nat
  key : CompositeKey
  transformedMasterKey : Nat
  hasKey : Bool
  emitModified : Bool
  deletedObjects : List DeletedObject
  rootGroup : Group
  metadata : Metadata

/-- KeePass2::CIPHER_AES, an arbitrary nonzero cipher identity token. -/
def CIPHER_AES : Nat := 1

/-- Database::Database(): fresh identity, default cipher, GZip compression
(selector 1), 50000 transform rounds, no key, change notification disabled,
empty tombstone ledger, fresh empty root group. The recycle-bin-enabled
default is modelled from the spec (Metadata is not under src/). -/
def Database.new (uuid rootUuid : Nat) : Database where
  uuid := uuid
  cipher := CIPHER_AES
  compressionAlgo := 1
  transformRounds := 50000
  transformSeed := 0
  key := ⟨0⟩
  transformedMasterKey := 0
  hasKey := false
  emitModified := false
  deletedObjects := []
  rootGroup := .mk rootUuid [] []
  metadata := { masterKeyChanged := none, recycleBinEnabled := true, recycleBin := none }

/-- Database::setKey(key, transformSeed, updateChangedTime): stores the
composite secret and the seed, recomputes the transformed master key with the
current round count, sets the has-key flag, optionally stamps Metadata's
master-key-changed time with the current UTC time, and emits
modifiedImmediate. The clock is the explicit now parameter. -/
def Database.setKeyFull (db : Database) (key : CompositeKey) (seed : Nat)
    (updateChangedTime : Bool) (now : Nat) : Database × List DbEvent :=
  ({ db with
      key := key
      transformSeed := seed
      transformedMasterKey := key.transform seed db.transformRounds
      hasKey := true
      metadata :=
        if updateChangedTime then
          { db.metadata with masterKeyChanged := some now }
        else
          db.metadata },
    [DbEvent.modifiedImmediate])

/-- Database::setKey(key) (seed omitted): draws a fresh random 32-byte seed
(Random::randomArray(32), modelled as the explicit freshSeed parameter) and
delegates to the full overload with updateChangedTime left at its default of
true. -/
def Database.setKeyRandom (db : Database) (key : CompositeKey) (freshSeed : Nat)
    (now : Nat) : Database × List DbEvent :=
  db.setKeyFull key freshSeed true now

/-- Database::setTransformRounds(rounds): if the round count actually changes,
store it and, when a key is set, re-derive by calling setKey(m_key) — the
one-argument overload, which draws a fresh random seed. If the round count is
unchanged the function does nothing. -/
def Database.setTransformRounds (db : Database) (rounds : Nat) (freshSeed : Nat)
    (now : Nat) : Database × List DbEvent :=
  if db.transformRounds ≠ rounds then
    let db1 := { db with transformRounds := rounds }
    if db1.hasKey then
      db1.setKeyRandom db1.key freshSeed now
    else
      (db1, [])
  else
    (db, [])

/-- Database::resolveEntry(uuid): recFindEntry from the root group. -/
def Database.resolveEntry (db : Database) (u : Nat) : Option Entry :=
  recFindEntry u db.rootGroup

/-- Database::resolveGroup(uuid): recFindGroup from the root group. -/
def Database.resolveGroup (db : Database) (u : Nat) : Option Group :=
  recFindGroup u db.rootGroup

/-- Database::createRecycleBin(): builds a fresh recycle group
(Group::createRecycleBin, modelled from the spec as a fresh empty group with a
fresh random identity passed in as freshUuid), attaches it as the last child
of the root group, and records it in Metadata by identity. -/
def Database.createRecycleBin (db : Database) (freshUuid : Nat) : Database :=
  { db with
      rootGroup :=
        Group.mk db.rootGroup.uuid db.rootGroup.entries
          (db.rootGroup.children ++ [Group.mk freshUuid [] []])
      metadata := { db.metadata with recycleBin := some freshUuid } }

/-- Database::recycleEntry(entry): when the recycle bin is enabled, lazily
create the recycle group if Metadata has none recorded, then move the entry
into it (Entry::setGroup is modelled from the spec as the ownership transfer
detach-then-append); when disabled, the entry object is destroyed (detached
from the tree). -/
def Database.recycleEntry (db : Database) (e : Entry) (freshUuid : Nat) : Database :=
  if db.metadata.recycleBinEnabled then
    let db1 :=
      if db.metadata.recycleBin = none then db.createRecycleBin freshUuid else db
    let bin := Option.getD db1.metadata.recycleBin 0
    { db1 with rootGroup := addEntryG bin e (removeEntryG e.uuid db1.rootGroup) }
  else
    { db with rootGroup := removeEntryG e.uuid db.rootGroup }

/-- Database::verifyKey(key): compares raw-key representations. -/
def Database.verifyKey (db : Database) (key : CompositeKey) : Bool :=
  db.key.rawKey == key.rawKey

/-- Database::addDeletedObject(uuid): builds a tombstone stamped with the
current UTC time and appends it to the ledger. -/
def Database.addDeletedObject (db : Database) (uuid : Nat) (now : Nat) : Database :=
  { db with deletedObjects := db.deletedObjects ++ [⟨uuid, now⟩] }

/-- A sequence of addDeletedObject(uuid) calls, each given as an identity
paired with the clock reading at the time of the call. -/
def Database.runDeletions (db : Database) : List (Nat × Nat) → Database
  | [] => db
  | (u, t) :: rest => (db.addDeletedObject u t).runDeletions rest

/- The process-wide identity registry: QHash<Uuid, Database*> m_uuidMap,
modelled as an association list from a database identity to an instance tag
(a nonzero Nat standing for the live Database pointer; 0 stands for the null
pointer returned on a failed lookup). -/

/-- The registry table. -/
def Registry : Type := List (Nat × Nat)

/-- QHash::value(key, defaultValue): the stored value for the key, or the
default when absent. -/
def Registry.value (m : Registry) (k : Nat) (dflt : Nat) : Nat :=
  match List.find? (fun p => p.1 == k) m with
  | some p => p.2
  | none => dflt

/-- QHash::insert(key, value): inserts, and if an item with the key is already
present its value is replaced. -/
def Registry.insert (m : Registry) (k v : Nat) : Registry :=
  (k, v) :: List.filter (fun p => p.1 != k) m

/-- The registration the Database constructor performs:
m_uuidMap.insert(m_uuid, this). -/
def registerDatabase (m : Registry) (uuid inst : Nat) : Registry :=
  Registry.insert m uuid inst

/-- Database::databaseByUuid(uuid): m_uuidMap.value(uuid, 0) — the registered
instance, or the null pointer 0 when the identity is not registered. -/
def databaseByUuid (m : Registry) (uuid : Nat) : Nat :=
  Registry.value m uuid 0

/- The change notifier: m_timer is a single-shot QTimer; startModifiedTimer is
the slot connected to modifiedImmediate, and the timer's timeout signal is the
externally observable modified event. The timer is modelled as an optional
deadline; time is modelled in the timer's own units (milliseconds in Qt). -/

/-- The fixed debounce delay: m_timer->start(150). -/
def debounceDelay : Nat := 150

/-- Database::startModifiedTimer(): does nothing when notification is
disabled; otherwise stops any pending timer and starts it again, so the
single one-shot deadline becomes now + 150. -/
def startModifiedTimer (emitModified : Bool) (now : Nat) (timer : Option Nat) :
    Option Nat :=
  if emitModified = false then timer
  else some (now + debounceDelay)

/-- The single-shot timer observed at time t: if its deadline has passed it
fires (emitting modified at the deadline) and deactivates. -/
def fireBefore (timer : Option Nat) (t : Nat) : List Nat × Option Nat :=
  match timer with
  | some d => if d ≤ t then ([d], none) else ([], some d)
  | none => ([], none)

/-- The event loop run over an ascending list of times at which
modifiedImmediate is raised: before each mutation any expired timer fires,
then the mutation restarts the timer via startModifiedTimer; after the last
mutation a still-pending timer fires at its deadline. Returns the times at
which the debounced modified signal is emitted. -/
def runEvents (emitModified : Bool) : List Nat → Option Nat → List Nat
  | [], none => []
  | [], some d => [d]
  | t :: ts, timer =>
    (fireBefore timer t).1 ++
      runEvents emitModified ts (startModifiedTimer emitModified t (fireBefore timer t).2)

/-- A concrete database with a key set, used to instantiate hypotheses of the
key-manager theorems. -/
def sampleDb : Database :=
  { Database.new 1 2 with
      key := ⟨7⟩
      transformSeed := 3
      transformedMasterKey := CompositeKey.transform ⟨7⟩ 3 50000
      hasKey := true }

/-- A concrete database whose root group holds one entry, the recycle bin
enabled and not yet created. -/
def sampleTreeDb : Database :=
  { Database.new 1 0 with rootGroup := Group.mk 0 [⟨1⟩] [] }

/-- The same tree with the recycle bin disabled. -/
def sampleTreeDbNoBin : Database :=
  { sampleTreeDb with
      metadata := { sampleTreeDb.metadata with recycleBinEnabled := false } }

/-- C2: setKey(key, seed, updateChangedTime) stores the composite secret and
the seed, recomputes the transformed master key as key.transform(seed, rounds)
with the round count unchanged, sets has-key, stamps Metadata's
master-key-changed time with the current UTC time exactly when
updateChangedTime is true, and raises one immediate (non-debounced)
modification event on every call. -/
theorem setKey_spec (db : Database) (key : CompositeKey) (seed : Nat)
    (updateChangedTime : Bool) (now : Nat) :
    (db.setKeyFull key seed updateChangedTime now).1.key = key ∧
    (db.setKeyFull key seed updateChangedTime now).1.transformSeed = seed ∧
    (db.setKeyFull key seed updateChangedTime now).1.transformRounds = db.transformRounds ∧
    (db.setKeyFull key seed updateChangedTime now).1.transformedMasterKey =
      key.transform seed db.transformRounds ∧
    (db.setKeyFull key seed updateChangedTime now).1.hasKey = true ∧
    (db.setKeyFull key seed updateChangedTime now).1.metadata.masterKeyChanged =
      (if updateChangedTime then some now else db.metadata.masterKeyChanged) ∧
    (db.setKeyFull key seed updateChangedTime now).2 = [DbEvent.modifiedImmediate] := by
  cases updateChangedTime <;> simp [Database.setKeyFull]

/-- C5: when the requested round count equals the current one,
setTransformRounds is a complete no-op: the database state, the transformed
key, the seed and the composite secret are all byte-for-byte unchanged and no
modification event is emitted. -/
theorem setTransformRounds_same_noop (db : Database) (freshSeed now : Nat)
    (_hk : db.hasKey = true) :
    db.setTransformRounds db.transformRounds freshSeed now = (db, []) := by
  simp [Database.setTransformRounds]

/-- C5 witness: the no-op on a concrete database with a key set. -/
theorem setTransformRounds_same_noop_witness :
    sampleDb.hasKey = true ∧
    sampleDb.setTransformRounds sampleDb.transformRounds 4 99 = (sampleDb, []) :=
  ⟨rfl, setTransformRounds_same_noop sampleDb 4 99 rfl⟩

/-- C1 counterexample: on a concrete database with a key set, changing the
round count from 50000 to 60000 rotates the transform seed (setKey(m_key)
draws a fresh random seed) and derives the new transformed key from the fresh
seed, so the stored seed is not unchanged and the transformed key differs from
key.transform(old seed, 60000). -/
theorem setTransformRounds_keeps_seed_cex :
    (sampleDb.setTransformRounds 60000 4 99).1.transformSeed ≠ sampleDb.transformSeed ∧
    (sampleDb.setTransformRounds 60000 4 99).1.transformedMasterKey ≠
      sampleDb.key.transform sampleDb.transformSeed 60000 := by
  decide

/-- C1 amended: with a key set, changing the round count immediately
re-derives the transformed master key using the stored composite secret, the
new round count and a freshly drawn random seed, which replaces the stored
transform seed. -/
theorem setTransformRounds_change_rederives (db : Database) (n freshSeed now : Nat)
    (hk : db.hasKey = true) (hne : db.transformRounds ≠ n) :
    (db.setTransformRounds n freshSeed now).1.key = db.key ∧
    (db.setTransformRounds n freshSeed now).1.transformRounds = n ∧
    (db.setTransformRounds n freshSeed now).1.transformSeed = freshSeed ∧
    (db.setTransformRounds n freshSeed now).1.transformedMasterKey =
      db.key.transform freshSeed n := by
  simp [Database.setTransformRounds, hne, hk, Database.setKeyRandom, Database.setKeyFull]

/-- C1 amended witness: the re-derivation at a concrete database, round count
and fresh seed. -/
theorem setTransformRounds_change_rederives_witness :
    sampleDb.hasKey = true ∧ sampleDb.transformRounds ≠ 60000 ∧
    ((sampleDb.setTransformRounds 60000 4 99).1.key = sampleDb.key ∧
     (sampleDb.setTransformRounds 60000 4 99).1.transformRounds = 60000 ∧
     (sampleDb.setTransformRounds 60000 4 99).1.transformSeed = 4 ∧
     (sampleDb.setTransformRounds 60000 4 99).1.transformedMasterKey =
       sampleDb.key.transform 4 60000) :=
  ⟨rfl, by decide,
    setTransformRounds_change_rederives sampleDb 60000 4 99 rfl (by decide)⟩

/-- C9: with a key set, changing the round count delegates to setKey with
updateChangedTime left at its default of true, so it also stamps Metadata's
master-key-changed time with the current UTC time and emits one immediate
modification event. -/
theorem setTransformRounds_change_frame (db : Database) (n freshSeed now : Nat)
    (hk : db.hasKey = true) (hne : db.transformRounds ≠ n) :
    (db.setTransformRounds n freshSeed now).1.metadata.masterKeyChanged = some now ∧
    (db.setTransformRounds n freshSeed now).2 = [DbEvent.modifiedImmediate] := by
  simp [Database.setTransformRounds, hne, hk, Database.setKeyRandom, Database.setKeyFull]

/-- C9 witness: the side effects at a concrete database and round count. -/
theorem setTransformRounds_change_frame_witness :
    sampleDb.hasKey = true ∧ sampleDb.transformRounds ≠ 60000 ∧
    ((sampleDb.setTransformRounds 60000 4 99).1.metadata.masterKeyChanged = some 99 ∧
     (sampleDb.setTransformRounds 60000 4 99).2 = [DbEvent.modifiedImmediate]) :=
  ⟨rfl, by decide, setTransformRounds_change_frame sampleDb 60000 4 99 rfl (by decide)⟩

/-- C6: the tombstone ledger is append-only: addDeletedObject(uuid) appends a
tombstone stamped with the current UTC time, and across any sequence of calls
the previously returned ledger is a prefix of the new one (so its length is
monotonically non-decreasing and every earlier tombstone is still present,
unmodified, at its original position). -/
theorem deletedObjects_append_only (db : Database) (u t : Nat)
    (calls : List (Nat × Nat)) :
    (db.addDeletedObject u t).deletedObjects = db.deletedObjects ++ [⟨u, t⟩] ∧
    (∃ rest, (db.runDeletions calls).deletedObjects = db.deletedObjects ++ rest) ∧
    db.deletedObjects.length ≤ (db.runDeletions calls).deletedObjects.length := by
  have hpre : ∀ (d : Database) (cs : List (Nat × Nat)),
      ∃ rest, (d.runDeletions cs).deletedObjects = d.deletedObjects ++ rest := by
    intro d cs
    induction cs generalizing d with
    | nil => exact ⟨[], by simp [Database.runDeletions]⟩
    | cons p rest ih =>
      obtain ⟨pu, pt⟩ := p
      obtain ⟨r, hr⟩ := ih (d.addDeletedObject pu pt)
      refine ⟨⟨pu, pt⟩ :: r, ?_⟩
      have hstep : d.runDeletions ((pu, pt) :: rest) =
          (d.addDeletedObject pu pt).runDeletions rest := rfl
      rw [hstep, hr]
      simp [Database.addDeletedObject]
  refine ⟨rfl, hpre db calls, ?_⟩
  obtain ⟨r, hr⟩ := hpre db calls
  simp [hr]

/-- C8 counterexample: registering a second instance (tag 2) under an
identity already registered to instance tag 1 does not fail and does not
leave the old registration in place: the registry lookup afterwards returns
the new instance. -/
theorem registerDatabase_duplicate_cex :
    databaseByUuid (registerDatabase (registerDatabase [] 5 1) 5 2) 5 = 2 ∧
    (2 : Nat) ≠ 1 := by
  decide

/-- C8 amended: registering a Database under an identity that is already
present always succeeds and replaces the existing registration
(QHash::insert semantics): the registry lookup for that identity afterwards
returns the newly registered instance. -/
theorem registerDatabase_duplicate_replaces (m : Registry) (id v1 v2 : Nat) :
    databaseByUuid (registerDatabase (registerDatabase m id v1) id v2) id = v2 := by
  simp [databaseByUuid, registerDatabase, Registry.insert, Registry.value]

/-- Stepping lemma: an immediate event at time t with no pending timer leaves
the timer pending at t + 150. -/
theorem runEvents_cons_none (ts : List Nat) (t : Nat) :
    runEvents true (t :: ts) none = runEvents true ts (some (t + 150)) := by
  simp [runEvents, fireBefore, startModifiedTimer, debounceDelay]

/-- Stepping lemma: an immediate event at time t while a timer is pending for
a later deadline restarts the timer to t + 150 without firing. -/
theorem runEvents_cons_live (ts : List Nat) (t d : Nat) (h : ¬ d ≤ t) :
    runEvents true (t :: ts) (some d) = runEvents true ts (some (t + 150)) := by
  simp [runEvents, fireBefore, startModifiedTimer, debounceDelay, h]

/-- C7: with notifications enabled, every immediate mutation event restarts
the single one-shot timer to fire 150 units after that event (the model keeps
at most one pending deadline by construction), and a burst of 5 immediate
events spaced 10 units apart yields exactly one modified event, 150 units
after the last of the 5. -/
theorem debounce_coalescing :
    (∀ now timer, startModifiedTimer true now timer = some (now + 150)) ∧
    ∀ t, runEvents true [t, t + 10, t + 20, t + 30, t + 40] none = [t + 190] := by
  constructor
  · intro now timer
    simp [startModifiedTimer, debounceDelay]
  · intro t
    rw [runEvents_cons_none, runEvents_cons_live _ _ _ (by omega),
      runEvents_cons_live _ _ _ (by omega), runEvents_cons_live _ _ _ (by omega),
      runEvents_cons_live _ _ _ (by omega)]
    have h190 : t + 40 + 150 = t + 190 := by omega
    rw [h190]
    simp [runEvents]

/-- C10: a freshly constructed Database has change notification disabled,
and with notification disabled startModifiedTimer never starts the timer, so
no sequence of immediate mutation events ever produces a debounced modified
event. -/
theorem fresh_database_never_fires (u r : Nat) :
    (Database.new u r).emitModified = false ∧
    (∀ now timer, startModifiedTimer false now timer = timer) ∧
    ∀ ts, runEvents false ts none = [] := by
  refine ⟨rfl, fun now timer => by simp [startModifiedTimer], ?_⟩
  intro ts
  induction ts with
  | nil => simp [runEvents]
  | cons t ts ih =>
    simpa [runEvents, fireBefore, startModifiedTimer] using ih

/-- Unfolding countGroupsWithUuid through the accessors. -/
theorem countGroups_eta (u : Nat) (g : Group) :
    countGroupsWithUuid u g =
      (if g.uuid = u then 1 else 0) + countGroupsWithUuidL u g.children := by
  cases g
  rfl

/-- Unfolding totalGroups through the accessors. -/
theorem totalGroups_eta (g : Group) :
    totalGroups g = 1 + totalGroupsL g.children := by
  cases g
  rfl

/-- Group-identity count distributes over forest concatenation. -/
theorem countGroupsL_append (u : Nat) (l1 l2 : List Group) :
    countGroupsWithUuidL u (l1 ++ l2) =
      countGroupsWithUuidL u l1 + countGroupsWithUuidL u l2 := by
  induction l1 with
  | nil => simp [countGroupsWithUuidL]
  | cons c cs ih =>
    simp only [List.cons_append, countGroupsWithUuidL, List.append_eq, ih]
    omega

/-- Total group count distributes over forest concatenation. -/
theorem totalGroupsL_append (l1 l2 : List Group) :
    totalGroupsL (l1 ++ l2) = totalGroupsL l1 + totalGroupsL l2 := by
  induction l1 with
  | nil => simp [totalGroupsL]
  | cons c cs ih =>
    simp only [List.cons_append, totalGroupsL, List.append_eq, ih]
    omega

mutual
/-- recFindEntry is the first match over the depth-first pre-order entry
listing. -/
theorem recFindEntry_eq (u : Nat) :
    ∀ g, recFindEntry u g = List.find? (fun e => e.uuid == u) (preorderEntries g)
  | .mk gu es cs => by
    simp only [recFindEntry, preorderEntries]
    rw [List.find?_append, recFindEntryL_eq u cs]
    cases h : List.find? (fun e => e.uuid == u) es <;> simp [h, Option.or]

/-- Forest version of recFindEntry_eq. -/
theorem recFindEntryL_eq (u : Nat) :
    ∀ cs, recFindEntryL u cs = List.find? (fun e => e.uuid == u) (preorderEntriesL cs)
  | [] => rfl
  | c :: cs => by
    simp only [recFindEntryL, preorderEntriesL]
    rw [List.find?_append, recFindEntry_eq u c, recFindEntryL_eq u cs]
    cases h : List.find? (fun e => e.uuid == u) (preorderEntries c) <;> simp [h, Option.or]
end

mutual
/-- recFindGroup is the first match over the depth-first pre-order group
listing, the current group checked before its children. -/
theorem recFindGroup_eq (u : Nat) :
    ∀ g, recFindGroup u g = List.find? (fun x => x.uuid == u) (preorderGroups g)
  | .mk gu es cs => by
    simp only [recFindGroup, preorderGroups]
    by_cases h : gu = u
    · rw [if_pos h, List.find?_cons_of_pos _ (by simp [Group.uuid, h])]
    · rw [if_neg h, List.find?_cons_of_neg _ (by simp [Group.uuid, h])]
      exact recFindGroupL_eq u cs

/-- Forest version of recFindGroup_eq. -/
theorem recFindGroupL_eq (u : Nat) :
    ∀ cs, recFindGroupL u cs = List.find? (fun x => x.uuid == u) (preorderGroupsL cs)
  | [] => rfl
  | c :: cs => by
    simp only [recFindGroupL, preorderGroupsL]
    rw [List.find?_append, recFindGroup_eq u c, recFindGroupL_eq u cs]
    cases h : List.find? (fun x => x.uuid == u) (preorderGroups c) <;> simp [h, Option.or]
end

mutual
/-- Detaching an entry identity leaves no occurrence of it in the subtree. -/
theorem containsEntry_remove (u : Nat) :
    ∀ g, containsEntryG u (removeEntryG u g) = false
  | .mk gu es cs => by
    simp only [removeEntryG, containsEntryG, Bool.or_eq_false_iff]
    refine ⟨?_, containsEntryL_remove u cs⟩
    rw [List.any_eq_false]
    intro e he
    simp only [List.mem_filter] at he
    simpa using he.2

/-- Forest version of containsEntry_remove. -/
theorem containsEntryL_remove (u : Nat) :
    ∀ cs, containsEntryL u (removeEntryL u cs) = false
  | [] => rfl
  | c :: cs => by
    simp only [removeEntryL, containsEntryL, Bool.or_eq_false_iff]
    exact ⟨containsEntry_remove u c, containsEntryL_remove u cs⟩
end

mutual
/-- Detaching an entry does not change group-identity counts. -/
theorem countGroups_remove (b u : Nat) :
    ∀ g, countGroupsWithUuid b (removeEntryG u g) = countGroupsWithUuid b g
  | .mk gu es cs => by
    simp only [removeEntryG, countGroupsWithUuid, countGroupsL_remove b u cs]

/-- Forest version of countGroups_remove. -/
theorem countGroupsL_remove (b u : Nat) :
    ∀ cs, countGroupsWithUuidL b (removeEntryL u cs) = countGroupsWithUuidL b cs
  | [] => rfl
  | c :: cs => by
    simp only [removeEntryL, countGroupsWithUuidL, countGroups_remove b u c,
      countGroupsL_remove b u cs]
end

mutual
/-- Attaching an entry does not change group-identity counts. -/
theorem countGroups_add (b t : Nat) (e : Entry) :
    ∀ g, countGroupsWithUuid b (addEntryG t e g) = countGroupsWithUuid b g
  | .mk gu es cs => by
    simp only [addEntryG, countGroupsWithUuid, countGroupsL_add b t e cs]

/-- Forest version of countGroups_add. -/
theorem countGroupsL_add (b t : Nat) (e : Entry) :
    ∀ cs, countGroupsWithUuidL b (addEntryL t e cs) = countGroupsWithUuidL b cs
  | [] => rfl
  | c :: cs => by
    simp only [addEntryL, countGroupsWithUuidL, countGroups_add b t e c,
      countGroupsL_add b t e cs]
end

mutual
/-- Detaching an entry does not change the total group count. -/
theorem totalGroups_remove (u : Nat) :
    ∀ g, totalGroups (removeEntryG u g) = totalGroups g
  | .mk gu es cs => by
    simp only [removeEntryG, totalGroups, totalGroupsL_remove u cs]

/-- Forest version of totalGroups_remove. -/
theorem totalGroupsL_remove (u : Nat) :
    ∀ cs, totalGroupsL (removeEntryL u cs) = totalGroupsL cs
  | [] => rfl
  | c :: cs => by
    simp only [removeEntryL, totalGroupsL, totalGroups_remove u c, totalGroupsL_remove u cs]
end

mutual
/-- Attaching an entry does not change the total group count. -/
theorem totalGroups_add (t : Nat) (e : Entry) :
    ∀ g, totalGroups (addEntryG t e g) = totalGroups g
  | .mk gu es cs => by
    simp only [addEntryG, totalGroups, totalGroupsL_add t e cs]

/-- Forest version of totalGroups_add. -/
theorem totalGroupsL_add (t : Nat) (e : Entry) :
    ∀ cs, totalGroupsL (addEntryL t e cs) = totalGroupsL cs
  | [] => rfl
  | c :: cs => by
    simp only [addEntryL, totalGroupsL, totalGroups_add t e c, totalGroupsL_add t e cs]
end

mutual
/-- Attaching to a group identity that does not occur is the identity map. -/
theorem addEntry_absent (b : Nat) (e : Entry) :
    ∀ g, countGroupsWithUuid b g = 0 → addEntryG b e g = g
  | .mk gu es cs => by
    intro h
    simp only [countGroupsWithUuid] at h
    by_cases hgu : gu = b
    · simp [hgu] at h
    · have hcs : countGroupsWithUuidL b cs = 0 := by simpa [hgu] using h
      simp only [addEntryG, if_neg hgu, addEntryL_absent b e cs hcs]

/-- Forest version of addEntry_absent. -/
theorem addEntryL_absent (b : Nat) (e : Entry) :
    ∀ cs, countGroupsWithUuidL b cs = 0 → addEntryL b e cs = cs
  | [] => by
    intro
    rfl
  | c :: cs => by
    intro h
    simp only [countGroupsWithUuidL] at h
    simp only [addEntryL, addEntry_absent b e c (by omega), addEntryL_absent b e cs (by omega)]
end

mutual
/-- A subtree containing no entry with the identity yields no owner for it. -/
theorem ownerOf_none (u : Nat) :
    ∀ g, containsEntryG u g = false → ownerOfG u g = none
  | .mk gu es cs => by
    intro h
    simp only [containsEntryG, Bool.or_eq_false_iff] at h
    simp only [ownerOfG, if_neg (by simp [h.1] : ¬ List.any es (fun e => e.uuid == u) = true)]
    exact ownerOfL_none u cs h.2

/-- Forest version of ownerOf_none. -/
theorem ownerOfL_none (u : Nat) :
    ∀ cs, containsEntryL u cs = false → ownerOfL u cs = none
  | [] => by
    intro
    rfl
  | c :: cs => by
    intro h
    simp only [containsEntryL, Bool.or_eq_false_iff] at h
    simp only [ownerOfL, ownerOf_none u c h.1, ownerOfL_none u cs h.2]
end

mutual
/-- Attaching an entry to a present group identity, in a subtree otherwise
free of the entry's identity, makes that group the entry's owner. -/
theorem ownerOf_add (b : Nat) (e : Entry) :
    ∀ g, containsEntryG e.uuid g = false → 1 ≤ countGroupsWithUuid b g →
      ownerOfG e.uuid (addEntryG b e g) = some b
  | .mk gu es cs => by
    intro hc hn
    simp only [containsEntryG, Bool.or_eq_false_iff] at hc
    simp only [countGroupsWithUuid] at hn
    simp only [addEntryG, ownerOfG]
    by_cases hgu : gu = b
    · rw [if_pos hgu, if_pos (by simp), hgu]
    · rw [if_neg hgu, if_neg (by simp [hc.1] : ¬ List.any es (fun e2 => e2.uuid == e.uuid) = true)]
      refine ownerOfL_add b e cs hc.2 ?_
      simp [hgu] at hn
      exact hn

/-- Forest version of ownerOf_add. -/
theorem ownerOfL_add (b : Nat) (e : Entry) :
    ∀ cs, containsEntryL e.uuid cs = false → 1 ≤ countGroupsWithUuidL b cs →
      ownerOfL e.uuid (addEntryL b e cs) = some b
  | [] => by
    intro _ hn
    simp [countGroupsWithUuidL] at hn
  | c :: cs => by
    intro hc hn
    simp only [containsEntryL, Bool.or_eq_false_iff] at hc
    simp only [countGroupsWithUuidL] at hn
    simp only [addEntryL, ownerOfL]
    by_cases h1 : 1 ≤ countGroupsWithUuid b c
    · rw [ownerOf_add b e c hc.1 h1]
    · have h0 : countGroupsWithUuid b c = 0 := by omega
      rw [addEntry_absent b e c h0, ownerOf_none e.uuid c hc.1]
      exact ownerOfL_add b e cs hc.2 (by omega)
end

mutual
/-- A subtree containing no entry with the identity is searched without a
hit. -/
theorem recFind_not_contains (u : Nat) :
    ∀ g, containsEntryG u g = false → recFindEntry u g = none
  | .mk gu es cs => by
    intro h
    simp only [containsEntryG, Bool.or_eq_false_iff] at h
    have hfind : List.find? (fun e => e.uuid == u) es = none := by
      rw [List.find?_eq_none]
      intro a ha
      have h2 := List.any_eq_false.mp h.1 a ha
      simpa using h2
    simp only [recFindEntry, hfind]
    exact recFindL_not_contains u cs h.2

/-- Forest version of recFind_not_contains. -/
theorem recFindL_not_contains (u : Nat) :
    ∀ cs, containsEntryL u cs = false → recFindEntryL u cs = none
  | [] => by
    intro
    rfl
  | c :: cs => by
    intro h
    simp only [containsEntryL, Bool.or_eq_false_iff] at h
    simp only [recFindEntryL, recFind_not_contains u c h.1]
    exact recFindL_not_contains u cs h.2
end

/-- C4: resolveEntry is the depth-first pre-order search returning the first
entry whose identity matches (current group's entries first, then the child
subtrees in order), resolveGroup is the same traversal on group identities
with the current group checked before its children, both are total Lean
functions (hence always terminate), and a miss is the ordinary absent
result, characterised as no identity matching anywhere in the subtree. -/
theorem resolve_preorder_spec (db : Database) (u : Nat) :
    db.resolveEntry u = List.find? (fun e => e.uuid == u) (preorderEntries db.rootGroup) ∧
    db.resolveGroup u = List.find? (fun g => g.uuid == u) (preorderGroups db.rootGroup) ∧
    (db.resolveEntry u = none ↔ ∀ e ∈ preorderEntries db.rootGroup, e.uuid ≠ u) := by
  refine ⟨recFindEntry_eq u db.rootGroup, recFindGroup_eq u db.rootGroup, ?_⟩
  rw [Database.resolveEntry, recFindEntry_eq u db.rootGroup, List.find?_eq_none]
  constructor
  · intro h e he
    simpa using h e he
  · intro h e he
    simpa using h e he

/-- C3: with the recycle bin enabled and no recycle group recorded yet,
recycleEntry creates exactly one recycle group (one group with the fresh
identity, total group count up by one, recorded in Metadata) and the entry's
owning group becomes that group; with a recycle group already recorded,
further recycle calls reuse it (Metadata unchanged, no group created, the
entry's owner becomes the recorded group); with the recycle bin disabled the
entry is destroyed and resolveEntry from the root no longer finds it. -/
theorem recycleEntry_spec :
    (∀ (db : Database) (e : Entry) (freshUuid : Nat),
      db.metadata.recycleBinEnabled = true →
      db.metadata.recycleBin = none →
      countGroupsWithUuid freshUuid db.rootGroup = 0 →
      (db.recycleEntry e freshUuid).metadata.recycleBin = some freshUuid ∧
      countGroupsWithUuid freshUuid (db.recycleEntry e freshUuid).rootGroup = 1 ∧
      totalGroups (db.recycleEntry e freshUuid).rootGroup = totalGroups db.rootGroup + 1 ∧
      ownerOfG e.uuid (db.recycleEntry e freshUuid).rootGroup = some freshUuid) ∧
    (∀ (db : Database) (e : Entry) (freshUuid bin : Nat),
      db.metadata.recycleBinEnabled = true →
      db.metadata.recycleBin = some bin →
      1 ≤ countGroupsWithUuid bin db.rootGroup →
      (db.recycleEntry e freshUuid).metadata = db.metadata ∧
      totalGroups (db.recycleEntry e freshUuid).rootGroup = totalGroups db.rootGroup ∧
      ownerOfG e.uuid (db.recycleEntry e freshUuid).rootGroup = some bin) ∧
    (∀ (db : Database) (e : Entry) (freshUuid : Nat),
      db.metadata.recycleBinEnabled = false →
      (db.recycleEntry e freshUuid).resolveEntry e.uuid = none) := by
  refine ⟨?_, ?_, ?_⟩
  · intro db e fu hen hnone hfresh
    have hroot : (db.recycleEntry e fu).rootGroup =
        addEntryG fu e (removeEntryG e.uuid
          (Group.mk db.rootGroup.uuid db.rootGroup.entries
            (db.rootGroup.children ++ [Group.mk fu [] []]))) := by
      simp [Database.recycleEntry, hen, hnone, Database.createRecycleBin]
    have hmeta : (db.recycleEntry e fu).metadata.recycleBin = some fu := by
      simp [Database.recycleEntry, hen, hnone, Database.createRecycleBin]
    rw [countGroups_eta] at hfresh
    have hru : ¬ db.rootGroup.uuid = fu := by
      by_cases hx : db.rootGroup.uuid = fu
      · simp [hx] at hfresh
      · exact hx
    have hcs : countGroupsWithUuidL fu db.rootGroup.children = 0 := by
      simp [hru] at hfresh
      exact hfresh
    have hcount1 : countGroupsWithUuid fu
        (Group.mk db.rootGroup.uuid db.rootGroup.entries
          (db.rootGroup.children ++ [Group.mk fu [] []])) = 1 := by
      simp only [countGroupsWithUuid, countGroupsL_append, countGroupsWithUuidL, if_neg hru, hcs]
      simp
    refine ⟨hmeta, ?_, ?_, ?_⟩
    · rw [hroot, countGroups_add, countGroups_remove, hcount1]
    · rw [hroot, totalGroups_add, totalGroups_remove, totalGroups_eta db.rootGroup]
      simp only [totalGroups, totalGroupsL_append, totalGroupsL]
      omega
    · rw [hroot]
      refine ownerOf_add fu e _ (containsEntry_remove e.uuid _) ?_
      rw [countGroups_remove, hcount1]
  · intro db e fu bin hen hsome hbin
    have hroot : (db.recycleEntry e fu).rootGroup =
        addEntryG bin e (removeEntryG e.uuid db.rootGroup) := by
      simp [Database.recycleEntry, hen, hsome]
    have hmeta : (db.recycleEntry e fu).metadata = db.metadata := by
      simp [Database.recycleEntry, hen, hsome]
    refine ⟨hmeta, ?_, ?_⟩
    · rw [hroot, totalGroups_add, totalGroups_remove]
    · rw [hroot]
      refine ownerOf_add bin e _ (containsEntry_remove e.uuid _) ?_
      rw [countGroups_remove]
      exact hbin
  · intro db e fu hdis
    have hroot : (db.recycleEntry e fu).rootGroup = removeEntryG e.uuid db.rootGroup := by
      simp [Database.recycleEntry, hdis]
    rw [Database.resolveEntry, hroot]
    exact recFind_not_contains e.uuid _ (containsEntry_remove e.uuid _)

/-- C3 witness: the three recycle behaviours at concrete databases — creating
the recycle group on the tree with one entry, reusing it on the resulting
database, and destruction with the bin disabled. -/
theorem recycleEntry_spec_witness :
    ((sampleTreeDb.recycleEntry ⟨1⟩ 2).metadata.recycleBin = some 2 ∧
     countGroupsWithUuid 2 (sampleTreeDb.recycleEntry ⟨1⟩ 2).rootGroup = 1 ∧
     totalGroups (sampleTreeDb.recycleEntry ⟨1⟩ 2).rootGroup =
       totalGroups sampleTreeDb.rootGroup + 1 ∧
     ownerOfG 1 (sampleTreeDb.recycleEntry ⟨1⟩ 2).rootGroup = some 2) ∧
    (((sampleTreeDb.recycleEntry ⟨1⟩ 2).recycleEntry ⟨3⟩ 9).metadata =
       (sampleTreeDb.recycleEntry ⟨1⟩ 2).metadata ∧
     totalGroups ((sampleTreeDb.recycleEntry ⟨1⟩ 2).recycleEntry ⟨3⟩ 9).rootGroup =
       totalGroups (sampleTreeDb.recycleEntry ⟨1⟩ 2).rootGroup ∧
     ownerOfG 3 ((sampleTreeDb.recycleEntry ⟨1⟩ 2).recycleEntry ⟨3⟩ 9).rootGroup = some 2) ∧
    (sampleTreeDbNoBin.recycleEntry ⟨1⟩ 2).resolveEntry 1 = none :=
  ⟨recycleEntry_spec.1 sampleTreeDb ⟨1⟩ 2 rfl rfl (by decide),
   recycleEntry_spec.2.1 (sampleTreeDb.recycleEntry ⟨1⟩ 2) ⟨3⟩ 9 2
     (by decide) (by decide) (by decide),
   recycleEntry_spec.2.2 sampleTreeDbNoBin ⟨1⟩ 2 rfl⟩

end KPX
